import Mathlib

/-!
Verification of the AI-Web-Builder pipeline (a Mastra workflow that turns a
free-text website-requirements report into a populated GitHub repository).

Strings of the TypeScript source are modelled as `List Char`; ambient state
(`Date.now()`, `new Date()` as a YYYYMMDD string, the `GITHUB_TOKEN`
environment variable, the language-model call, and the per-path HTTP
responses of the GitHub Contents API) is passed explicitly as parameters.
Each workflow step's `execute` function is embedded as a Lean function
returning the list of attempted remote writes together with either the step's
output record or the message of the raised error.
-/

namespace WebBuilder

/-! ## Character classes and string helpers (JS semantics over `List Char`) -/

/-- Whitespace as matched by the JavaScript regex class `\s`
(the ASCII whitespace characters plus the Unicode space separators). -/
def jsIsSpace (c : Char) : Bool :=
  let n := c.toNat
  (9 ≤ n && n ≤ 13) || n = 32 || n = 160 || n = 5760 ||
  (8192 ≤ n && n ≤ 8202) || n = 8232 || n = 8233 || n = 8239 ||
  n = 8287 || n = 12288 || n = 65279

/-- Membership in the regex class `[a-z0-9]`. -/
def isWordChar (c : Char) : Bool :=
  (97 ≤ c.toNat && c.toNat ≤ 122) || (48 ≤ c.toNat && c.toNat ≤ 57)

/-- Membership in the regex class `[A-Z]`. -/
def isUpperCh (c : Char) : Bool :=
  65 ≤ c.toNat && c.toNat ≤ 90

/-- ASCII case folding, as applied by `String.prototype.toLowerCase` to the
ASCII range (the inputs of interest; non-ASCII letters are stripped by the
sanitizer's character filter in any case). -/
def toLowerChar (c : Char) : Char :=
  if 65 ≤ c.toNat && c.toNat ≤ 90 then Char.ofNat (c.toNat + 32) else c

/-- `s.toLowerCase()`. -/
def lowerL (l : List Char) : List Char := l.map toLowerChar

/-- Does `l` start with `pat`? (Used to model regex/substring matching.) -/
def startsWithL : List Char → List Char → Bool
  | _, [] => true
  | [], _ :: _ => false
  | c :: cs, d :: ds => (c = d) && startsWithL cs ds

/-- `l.includes(pat)`: substring occurrence, as in `String.prototype.includes`. -/
def includesL (l pat : List Char) : Bool :=
  match l with
  | [] => startsWithL [] pat
  | _ :: t => startsWithL l pat || includesL t pat

/-- Remove the maximal trailing run of characters satisfying `p`. -/
def dropTrailingWhile (p : Char → Bool) : List Char → List Char
  | [] => []
  | c :: cs =>
    match dropTrailingWhile p cs with
    | [] => if p c then [] else [c]
    | r => c :: r

/-- `s.trim()`: strip leading and trailing whitespace. -/
def trimL (l : List Char) : List Char :=
  dropTrailingWhile jsIsSpace (l.dropWhile jsIsSpace)

/-- `s.split(sep)` for a single-character separator: split at every
occurrence, keeping empty pieces (`"".split` gives `[""]`). -/
def splitOnChar (sep : Char) : List Char → List (List Char)
  | [] => [[]]
  | c :: cs =>
    if c = sep then [] :: splitOnChar sep cs
    else
      match splitOnChar sep cs with
      | [] => [[c]]
      | t :: ts => (c :: t) :: ts

/-- Worker for `splitRuns`: `inSep` records whether the scan stands inside a
separator run (the current piece having already been emitted), `acc` the
reversed current piece. -/
def splitRunsGo (p : Char → Bool) : Bool → List Char → List Char → List (List Char)
  | _, [], acc => [acc.reverse]
  | inSep, c :: cs, acc =>
    if p c then
      if inSep then splitRunsGo p true cs []
      else acc.reverse :: splitRunsGo p true cs []
    else splitRunsGo p false cs (c :: acc)

/-- `s.split(/\s+/)`-style splitting: separators are maximal runs of
characters satisfying `p`; a leading or trailing run contributes an empty
piece, exactly as the JavaScript regex split does. -/
def splitRuns (p : Char → Bool) (l : List Char) : List (List Char) :=
  splitRunsGo p false l []

/-- Worker for `replaceRuns`: `inRun` records whether the previous character
belonged to the run being replaced (so the replacement was already emitted). -/
def replaceRunsGo (p : Char → Bool) (r : Char) : Bool → List Char → List Char
  | _, [] => []
  | inRun, c :: cs =>
    if p c then
      if inRun then replaceRunsGo p r true cs
      else r :: replaceRunsGo p r true cs
    else c :: replaceRunsGo p r false cs

/-- Replace every maximal run of characters satisfying `p` by the single
character `r` (models `s.replace(/X+/g, r)` for a character class `X`). -/
def replaceRuns (p : Char → Bool) (r : Char) (l : List Char) : List Char :=
  replaceRunsGo p r false l

/-- All indices at which `pat` occurs in `l`. -/
def occStarts (pat l : List Char) : List Nat :=
  (List.range (l.length + 1)).filter (fun i => startsWithL (l.drop i) pat)

/-- `l.replace(new RegExp(".*" + pat + "\\s*"), "")`: a greedy `.*` strips
everything up to and through the last occurrence of `pat` (and the whitespace
following it); a string without an occurrence is returned unchanged. -/
def stripThrough (pat l : List Char) : List Char :=
  match (occStarts pat l).getLast? with
  | some i => (l.drop (i + pat.length)).dropWhile jsIsSpace
  | none => l

/-- Decimal digit characters. -/
def digitCh : Nat → Char
  | 0 => '0' | 1 => '1' | 2 => '2' | 3 => '3' | 4 => '4'
  | 5 => '5' | 6 => '6' | 7 => '7' | 8 => '8' | _ => '9'

/-- Decimal representation of a natural number (`n.toString()` in JS). -/
def natDigits (n : Nat) : List Char :=
  if h : n < 10 then [digitCh n]
  else natDigits (n / 10) ++ [digitCh (n % 10)]
termination_by n
decreasing_by
  exact Nat.div_lt_self (Nat.lt_of_lt_of_le (by omega) (Nat.le_of_not_lt h)) (by omega)

/-- `s.slice(-k)`: the last `k` characters (the whole string when shorter). -/
def lastN (k : Nat) (l : List Char) : List Char := l.drop (l.length - k)

/-! ## Project-name sanitizer and synthesizer (`parseRequirements` helpers) -/

/-- Characters kept by the sanitizer's filter `replace(/[^a-z0-9\s-]/g, '')`. -/
def keepChar (c : Char) : Bool := isWordChar c || jsIsSpace c || c = '-'

/-- Hyphen test, for the run-collapsing and trimming steps. -/
def isHyphen (c : Char) : Bool := c = '-'

/-- Steps 1-7 of `sanitizeProjectName`: lowercase; keep only letters, digits,
whitespace and hyphens; collapse whitespace runs to single hyphens; collapse
hyphen runs; strip leading/trailing hyphens; truncate to 25 characters; strip
a trailing hyphen run left by the truncation. -/
def sanitizeCore (name : List Char) : List Char :=
  let s1 := (lowerL name).filter keepChar
  let s2 := replaceRuns jsIsSpace '-' s1
  let s3 := replaceRuns isHyphen '-' s2
  let s4 := s3.dropWhile isHyphen
  let s5 := dropTrailingWhile isHyphen s4
  let s6 := s5.take 25
  dropTrailingWhile isHyphen s6

/-- The timestamp fallback `` `project-${Date.now().toString().slice(-6)}` ``;
`now` is the epoch-milliseconds value of `Date.now()`. -/
def fallbackName (now : Nat) : List Char :=
  "project-".data ++ lastN 6 (natDigits now)

/-- `sanitizeProjectName(name)`: the sanitizing pipeline, with the timestamp
fallback substituted when the sanitized string is empty (JS `|| fallback`). -/
def sanitizeProjectName (now : Nat) (name : List Char) : List Char :=
  let s := sanitizeCore name
  if s.isEmpty then fallbackName now else s

/-- The `stopWords` array of `extractKeyTerms`. -/
def stopWords : List (List Char) :=
  (["a", "an", "the", "and", "or", "but", "in", "on", "at", "to", "for",
    "of", "with", "by", "is", "are", "was", "were", "be", "been", "being",
    "have", "has", "had", "create", "build", "make", "develop", "design",
    "website", "site", "web", "page"]).map String.data

/-- The `businessTerms` array of `extractKeyTerms`. -/
def businessTerms : List (List Char) :=
  (["portfolio", "business", "shop", "store", "blog", "agency", "studio",
    "company"]).map String.data

/-- `extractKeyTerms(text)`: lowercase, replace every character outside
`[a-z0-9\s]` by a space, split on whitespace runs, keep words of length
3..12 that are not stop words, and move the business terms to the front
(preserving relative order within each group). -/
def extractKeyTerms (text : List Char) : List (List Char) :=
  let cleaned := (lowerL text).map fun c =>
    if isWordChar c || jsIsSpace c then c else ' '
  let words := ((splitRuns jsIsSpace cleaned).filter fun w =>
      decide (2 < w.length) && !decide (w ∈ stopWords)).filter fun w =>
      decide (w.length ≤ 12)
  let priorityWords := words.filter fun w => decide (w ∈ businessTerms)
  priorityWords ++ words.filter fun w => !decide (w ∈ priorityWords)

/-- `generateConciseProjectName(purpose, targetAudience)`: join the first
three key terms with hyphens (already lowercase); empty when no key term. -/
def generateConciseProjectName (purpose _targetAudience : List Char) : List Char :=
  let keyTerms := extractKeyTerms purpose
  if 0 < keyTerms.length then lowerL (List.intercalate ['-'] (keyTerms.take 3))
  else []

/-! ## The `parse-requirements` step -/

/-- The three labelled fields extracted from the report; a field the report
does not determine is `none` (the `purpose || undefined` pattern). -/
structure ExtractedInfo where
  purpose : Option (List Char)
  targetAudience : Option (List Char)
  businessObjectives : Option (List Char)
deriving DecidableEq

/-- Output record of the `parse-requirements` step. -/
structure ParseOutput where
  projectName : List Char
  requirements : List Char
  extractedInfo : ExtractedInfo
  success : Bool
deriving DecidableEq

/-- The mutable variables of the line scan in `parseRequirements` (all four
initialised to the empty string). -/
structure ParseVars where
  projectName : List Char
  purpose : List Char
  targetAudience : List Char
  businessObjectives : List Char
deriving DecidableEq

def purposeLabel : List Char := "Main purpose/goal:".data

def audienceLabel : List Char := "Target audience:".data

def objectivesLabel : List Char := "Business objectives:".data

/-- End position of a match of `(?:project|website)\s+name:\s*` (the
case-insensitive explicit-name label regex) starting at index `i` of the
lowercased line `low`: both keywords are 7 characters, then at least one
whitespace character, then `name:`, then greedily consumed whitespace. -/
def nameLabelEndAt (low : List Char) (i : Nat) : Option Nat :=
  if startsWithL (low.drop i) ("project".data) ||
     startsWithL (low.drop i) ("website".data) then
    let ws := ((low.drop (i + 7)).takeWhile jsIsSpace).length
    if 0 < ws && startsWithL (low.drop (i + 7 + ws)) ("name:".data) then
      some (i + 12 + ws + ((low.drop (i + 12 + ws)).takeWhile jsIsSpace).length)
    else none
  else none

/-- `line.replace(/.*(?:project|website)\s+name:\s*/i, '')`: the greedy `.*`
selects the last start index at which the label pattern matches; everything
through the end of that match is removed. A line without a match is
returned unchanged. -/
def stripNameLabel (line : List Char) : List Char :=
  let low := lowerL line
  match ((List.range (low.length + 1)).filter
      (fun i => (nameLabelEndAt low i).isSome)).getLast? with
  | some i =>
    match nameLabelEndAt low i with
    | some e => line.drop e
    | none => line
  | none => line

/-- One iteration of the line scan of `parseRequirements`: the line is
trimmed, then each of the four patterns is tested and its variable
overwritten on a match (the explicit project name only when the stripped
remainder is non-empty). -/
def processLine (v : ParseVars) (rawLine : List Char) : ParseVars :=
  let line := trimL rawLine
  let v1 :=
    if includesL line purposeLabel || includesL line ("- ".data ++ purposeLabel)
    then { v with purpose := trimL (stripThrough purposeLabel line) } else v
  let v2 :=
    if includesL line audienceLabel || includesL line ("- ".data ++ audienceLabel)
    then { v1 with targetAudience := trimL (stripThrough audienceLabel line) } else v1
  let v3 :=
    if includesL line objectivesLabel || includesL line ("- ".data ++ objectivesLabel)
    then { v2 with businessObjectives := trimL (stripThrough objectivesLabel line) } else v2
  if includesL (lowerL line) ("project name:".data) ||
     includesL (lowerL line) ("website name:".data) then
    let extractedName := trimL (stripNameLabel line)
    if extractedName.isEmpty then v3 else { v3 with projectName := extractedName }
  else v3

/-- The variable state after scanning every line of the report. -/
def parseVarsOf (report : List Char) : ParseVars :=
  (splitOnChar '\n' report).foldl processLine ⟨[], [], [], []⟩

/-- The date fallback `` `website-${timestamp}` `` where `today` is
the ISO date of `new Date()` with its hyphens removed (YYYYMMDD). -/
def websiteFallback (today : List Char) : List Char :=
  "website-".data ++ today

/-- Project name before sanitizing: the explicit name if one was scanned,
else the concise name synthesized from the purpose, else the date fallback
(also taken when the synthesizer returns the empty string). -/
def nameFromVars (today : List Char) (vars : ParseVars) : List Char :=
  let n1 :=
    if vars.projectName.isEmpty && !vars.purpose.isEmpty then
      generateConciseProjectName vars.purpose vars.targetAudience
    else vars.projectName
  if n1.isEmpty then websiteFallback today else n1

/-- JS `x || undefined` on a string variable. -/
def optOf (l : List Char) : Option (List Char) :=
  if l.isEmpty then none else some l

/-- The `execute` function of the `parse-requirements` step: reject an
absent/blank report, scan the lines, derive the project name, sanitize it,
and return the output record (`success` is always `true` on the non-raising
path). `now` models `Date.now()` and `today` the YYYYMMDD date string. -/
def parseRequirements (now : Nat) (today : List Char) (report : List Char) :
    Except (List Char) ParseOutput :=
  if report.isEmpty || (trimL report).isEmpty then
    .error "Requirements report is required but was not provided or is empty".data
  else
    let vars := parseVarsOf report
    .ok { projectName := sanitizeProjectName now (nameFromVars today vars)
          requirements := report
          extractedInfo :=
            { purpose := optOf vars.purpose
              targetAudience := optOf vars.targetAudience
              businessObjectives := optOf vars.businessObjectives }
          success := true }

/-! ## The business-type classifier (`inferBusinessType`, `websiteFinalizer.ts`) -/

/-- `inferBusinessType(requirements)`: lowercase the text and test the
category keyword sets in fixed order; the first category with an occurring
keyword wins, and `general` is the default. -/
def inferBusinessType (requirements : List Char) : List Char :=
  let lowerReq := lowerL requirements
  if includesL lowerReq "software".data || includesL lowerReq "technology".data ||
     includesL lowerReq "development".data then "technology".data
  else if includesL lowerReq "consulting".data || includesL lowerReq "advisory".data ||
     includesL lowerReq "strategy".data then "consulting".data
  else if includesL lowerReq "design".data || includesL lowerReq "creative".data ||
     includesL lowerReq "art".data then "creative".data
  else if includesL lowerReq "health".data || includesL lowerReq "medical".data ||
     includesL lowerReq "clinic".data then "healthcare".data
  else if includesL lowerReq "education".data || includesL lowerReq "learning".data ||
     includesL lowerReq "school".data then "education".data
  else if includesL lowerReq "restaurant".data || includesL lowerReq "food".data ||
     includesL lowerReq "dining".data then "restaurant".data
  else if includesL lowerReq "retail".data || includesL lowerReq "shop".data ||
     includesL lowerReq "store".data then "retail".data
  else "general".data

/-- The ordered category/keyword table as the specification describes it. -/
def categoryTable : List (List Char × List (List Char)) :=
  [("technology".data, ["software", "technology", "development"].map String.data),
   ("consulting".data, ["consulting", "advisory", "strategy"].map String.data),
   ("creative".data, ["design", "creative", "art"].map String.data),
   ("healthcare".data, ["health", "medical", "clinic"].map String.data),
   ("education".data, ["education", "learning", "school"].map String.data),
   ("restaurant".data, ["restaurant", "food", "dining"].map String.data),
   ("retail".data, ["retail", "shop", "store"].map String.data)]

/-- Specification-style rendering of the classifier: the first table entry
one of whose keywords occurs in the lowercased text, defaulting to
`general`. -/
def classifierSpec (requirements : List Char) : List Char :=
  match categoryTable.find?
      (fun e => e.2.any (fun kw => includesL (lowerL requirements) kw)) with
  | some e => e.1
  | none => "general".data

/-- The eight categories the classifier may return. -/
def businessCategories : List (List Char) :=
  (["technology", "consulting", "creative", "healthcare", "education",
    "restaurant", "retail", "general"]).map String.data

/-! ## The remote-writing stages

Each stage is embedded as a function from its (loosely typed) input record
and its environment to a `StageOutcome`: the ordered list of file paths for
which a Contents-API `PUT` was issued, the sublist of those whose response
was successful, and either the returned output record or the raised error
message. Boolean prerequisite flags are `Option Bool` (`none` models a flag
absent from the untyped `params` object, which destructures to `undefined`).
The environment consists of `tokenPresent` (whether `GITHUB_TOKEN` is set),
`ok` (the per-path success of the hosting API), and, for the two stages that
call the language model, the call's outcome `llm`. File contents, which no
claim mentions, are not modelled; writes are identified by path. -/
structure StageOutcome (σ : Type) where
  attempted : List (List Char)
  succeeded : List (List Char)
  result : Except (List Char) σ

/-- Input record of `initializeFramework` (`frameworkInitializer.ts`). -/
structure FrameworkInput where
  repositoryUrl : List Char
  repositoryName : List Char
  projectName : List Char
  requirements : List Char
  extractedInfo : ExtractedInfo
  success : Option Bool
deriving DecidableEq

/-- Output record of `initializeFramework`. -/
structure FrameworkOutput where
  repositoryUrl : List Char
  repositoryName : List Char
  projectName : List Char
  requirements : List Char
  frameworkInitialized : Bool
  success : Bool
deriving DecidableEq

/-- The paths of the scaffold files written by `initializeFramework`,
in source order. -/
def frameworkFilePaths : List (List Char) :=
  (["package.json", "index.html", "vite.config.ts", "tsconfig.json",
    "tsconfig.node.json", "src/main.tsx", "src/App.tsx", "src/App.css",
    "src/index.css", "README.md"]).map String.data

/-- The fail-fast write loop of `initializeFramework`: each file is `PUT` in
order and a non-success response raises immediately, so no later file is
attempted. (The raised message also interpolates the response body, which
the `Bool` response model elides.) -/
def putFilesFatal (ok : List Char → Bool) : List (List Char) → StageOutcome Unit
  | [] => ⟨[], [], .ok ()⟩
  | p :: ps =>
    if ok p then
      let r := putFilesFatal ok ps
      ⟨p :: r.attempted, p :: r.succeeded, r.result⟩
    else ⟨[p], [], .error ("Failed to create file ".data ++ p)⟩

/-- The `execute` function of `initialize-framework`: guard on the `success`
flag, then write the scaffold files fatally, then return with
`frameworkInitialized: true`. -/
def initializeFramework (inp : FrameworkInput) (ok : List Char → Bool) :
    StageOutcome FrameworkOutput :=
  if inp.success = some true then
    let w := putFilesFatal ok frameworkFilePaths
    match w.result with
    | .error e => ⟨w.attempted, w.succeeded, .error e⟩
    | .ok _ =>
      ⟨w.attempted, w.succeeded,
        .ok { repositoryUrl := inp.repositoryUrl
              repositoryName := inp.repositoryName
              projectName := inp.projectName
              requirements := inp.requirements
              frameworkInitialized := true
              success := true }⟩
  else ⟨[], [], .error "Repository creation failed, cannot initialize framework".data⟩

/-- Input record of `generateWebsiteStructure` (`webBuilder` tools). -/
structure StructureInput where
  repositoryUrl : List Char
  repositoryName : List Char
  projectName : List Char
  requirements : List Char
  frameworkInitialized : Option Bool
  success : Option Bool
deriving DecidableEq

/-- Output record of `generateWebsiteStructure`. -/
structure StructureOutput where
  repositoryUrl : List Char
  repositoryName : List Char
  projectName : List Char
  requirements : List Char
  websiteGenerated : Bool
  componentsCreated : List (List Char)
  success : Bool
deriving DecidableEq

/-- Outcome of a stage that consults the language model: a `StageOutcome`
together with the analysis text the stage fed to its file generators (the
local variable `structureAnalysis` and `contentAnalysis`; `[]` when the
stage raised before computing it). -/
structure LlmStageOutcome (σ : Type) where
  attempted : List (List Char)
  succeeded : List (List Char)
  analysis : List Char
  result : Except (List Char) σ

/-- The deterministic fallback analysis of `generateWebsiteStructure`. -/
def structureFallback (projectName requirements : List Char) : List Char :=
  "Fallback analysis for ".data ++ projectName ++
    " based on requirements: ".data ++ requirements

/-- The paths written by `generateWebsiteStructure` (`generateWebsiteFiles`),
in source order. -/
def structureFilePaths : List (List Char) :=
  (["src/App.tsx", "src/App.css", "src/index.css",
    "src/components/Header.tsx", "src/components/Hero.tsx",
    "src/components/About.tsx", "src/components/Services.tsx",
    "src/components/Contact.tsx", "src/components/Footer.tsx",
    "public/images/hero-bg.svg", "public/images/logo.svg",
    "public/images/service-1.svg", "public/images/service-2.svg",
    "public/images/service-3.svg", "public/images/about-image.svg"]).map String.data

/-- The `execute` function of `generate-website-structure`: guard on
`success` and `frameworkInitialized`; compute the analysis (the language
model's text, or the fallback when the call raises); require the token;
then `PUT` every file, logging and skipping failures, and return with
`websiteGenerated: true` and the successfully created `components/` paths. -/
def generateWebsiteStructure (inp : StructureInput)
    (llm : Except (List Char) (List Char)) (tokenPresent : Bool)
    (ok : List Char → Bool) : LlmStageOutcome StructureOutput :=
  if inp.success = some true ∧ inp.frameworkInitialized = some true then
    let analysis :=
      match llm with
      | .ok t => t
      | .error _ => structureFallback inp.projectName inp.requirements
    if tokenPresent then
      let succeeded := structureFilePaths.filter ok
      ⟨structureFilePaths, succeeded, analysis,
        .ok { repositoryUrl := inp.repositoryUrl
              repositoryName := inp.repositoryName
              projectName := inp.projectName
              requirements := inp.requirements
              websiteGenerated := true
              componentsCreated :=
                succeeded.filter (fun p => includesL p "components/".data)
              success := true }⟩
    else ⟨[], [], analysis, .error "GITHUB_TOKEN environment variable is required".data⟩
  else ⟨[], [], [], .error "Framework initialization failed, cannot generate website".data⟩

/-- Input record of `generateWebsiteContent` (`websiteFinalizer.ts`, second
step). -/
structure ContentInput where
  repositoryUrl : List Char
  repositoryName : List Char
  projectName : List Char
  requirements : List Char
  websiteGenerated : Option Bool
  componentsCreated : List (List Char)
  success : Option Bool
deriving DecidableEq

/-- Output record of `generateWebsiteContent`. -/
structure ContentOutput where
  repositoryUrl : List Char
  repositoryName : List Char
  projectName : List Char
  requirements : List Char
  contentGenerated : Bool
  stylingCompleted : Bool
  success : Bool
deriving DecidableEq

/-- The deterministic fallback analysis of `generateWebsiteContent`. -/
def contentFallback (projectName requirements : List Char) : List Char :=
  "Fallback content enhancement for ".data ++ projectName ++
    " based on requirements: ".data ++ requirements

/-- The paths updated by `generateWebsiteContent`
(`generateEnhancedComponents`), in source order. -/
def contentFilePaths : List (List Char) :=
  (["src/components/Hero.tsx", "src/components/About.tsx",
    "src/components/Services.tsx", "src/App.css"]).map String.data

/-- The `execute` function of `generate-website-content`: guard on `success`
and `websiteGenerated`; compute the content analysis (language model or
fallback); require the token; then read-then-`PUT` each enhanced component,
logging and skipping failures, and return with `contentGenerated: true` and
`stylingCompleted: true`. -/
def generateWebsiteContent (inp : ContentInput)
    (llm : Except (List Char) (List Char)) (tokenPresent : Bool)
    (ok : List Char → Bool) : LlmStageOutcome ContentOutput :=
  if inp.success = some true ∧ inp.websiteGenerated = some true then
    let analysis :=
      match llm with
      | .ok t => t
      | .error _ => contentFallback inp.projectName inp.requirements
    if tokenPresent then
      ⟨contentFilePaths, contentFilePaths.filter ok, analysis,
        .ok { repositoryUrl := inp.repositoryUrl
              repositoryName := inp.repositoryName
              projectName := inp.projectName
              requirements := inp.requirements
              contentGenerated := true
              stylingCompleted := true
              success := true }⟩
    else ⟨[], [], analysis, .error "GITHUB_TOKEN environment variable is required".data⟩
  else ⟨[], [], [], .error "Website generation failed, cannot generate content".data⟩

/-- Input record of `finalizeWebsite` (`websiteFinalizer.ts`, first step). -/
structure FinalizeInput where
  repositoryUrl : List Char
  repositoryName : List Char
  projectName : List Char
  requirements : List Char
  contentGenerated : Option Bool
  stylingCompleted : Option Bool
  success : Option Bool
deriving DecidableEq

/-- Output record of `finalizeWebsite`. -/
structure FinalizeOutput where
  repositoryUrl : List Char
  repositoryName : List Char
  projectName : List Char
  requirements : List Char
  frameworkInitialized : Bool
  websiteCompleted : Bool
  deploymentReady : Bool
  success : Bool
deriving DecidableEq

/-- The paths written by `finalizeWebsite` (`generateFinalFiles`), in source
order. -/
def finalizeFilePaths : List (List Char) :=
  (["README.md", ".gitignore", "public/robots.txt", "public/manifest.json",
    ".env.example"]).map String.data

/-- The `execute` function of `finalize-website`: guard on `success`,
`contentGenerated` and `stylingCompleted`; require the token; then
read-then-`PUT` each documentation file, logging and skipping failures,
and return with all completion flags `true`. -/
def finalizeWebsite (inp : FinalizeInput) (tokenPresent : Bool)
    (ok : List Char → Bool) : StageOutcome FinalizeOutput :=
  if inp.success = some true ∧ inp.contentGenerated = some true ∧
     inp.stylingCompleted = some true then
    if tokenPresent then
      ⟨finalizeFilePaths, finalizeFilePaths.filter ok,
        .ok { repositoryUrl := inp.repositoryUrl
              repositoryName := inp.repositoryName
              projectName := inp.projectName
              requirements := inp.requirements
              frameworkInitialized := true
              websiteCompleted := true
              deploymentReady := true
              success := true }⟩
    else ⟨[], [], .error "GITHUB_TOKEN environment variable is required".data⟩
  else ⟨[], [], .error "Previous steps failed, cannot finalize website".data⟩

/-- Sequencing of stage outcomes as the workflow engine chains steps: a
raised error halts the chain, so the writes of the failed prefix are the
writes of the whole run. -/
def chainWrites {α β : Type} (r : StageOutcome α) (next : α → StageOutcome β) :
    StageOutcome β :=
  match r.result with
  | .error e => ⟨r.attempted, r.succeeded, .error e⟩
  | .ok a =>
    let s := next a
    ⟨r.attempted ++ s.attempted, r.succeeded ++ s.succeeded, s.result⟩

/-! ## Specification-side definitions used by the theorems -/

/-- Deterministic matcher for the slug regex `[a-z0-9]+(-[a-z0-9]+)*`
anchored at both ends: `inWord` is true when the current group already has a
word character (so the string may end, or a hyphen may start a new group). -/
def slugOk : Bool → List Char → Bool
  | inWord, [] => inWord
  | inWord, c :: cs =>
    if c = '-' then inWord && slugOk false cs
    else isWordChar c && slugOk true cs

/-- Does `l` match `^[a-z0-9]+(-[a-z0-9]+)*$`? -/
def matchesSlug (l : List Char) : Bool := slugOk false l

/-- No two adjacent hyphens. -/
def noAdjHyphen : List Char → Bool
  | [] => true
  | [_] => true
  | c :: d :: rest => !(c = '-' && d = '-') && noAdjHyphen (d :: rest)

/-- The report of the full-report scenario (its single line). -/
def fullReportC8 : List Char :=
  "Main purpose/goal: Create a modern portfolio website for a freelance graphic designer".data

/-- The purpose sentence the full-report scenario extracts. -/
def purposeC8 : List Char :=
  "Create a modern portfolio website for a freelance graphic designer".data

/-- Specification-style description of one extracted field: the last line
(after trimming) containing the label determines the value — the remainder
after stripping everything through the label, trimmed — and an empty value
or no matching line leaves the field absent. -/
def fieldValueSpec (label report : List Char) : Option (List Char) :=
  match (((splitOnChar '\n' report).map trimL).filter
      (fun ln => includesL ln label)).getLast? with
  | none => none
  | some ln =>
    let v := trimL (stripThrough label ln)
    if v.isEmpty then none else some v

/-- The explicit project name a single raw line contributes: the line must
contain `project name:` or `website name:` case-insensitively and the
stripped remainder must be non-empty. -/
def explicitNameOf (rawLine : List Char) : Option (List Char) :=
  let line := trimL rawLine
  if includesL (lowerL line) ("project name:".data) ||
     includesL (lowerL line) ("website name:".data) then
    let nm := trimL (stripNameLabel line)
    if nm.isEmpty then none else some nm
  else none

/-! ## Classifier theorems -/

theorem inferBusinessType_eq_spec (req : List Char) :
    inferBusinessType req = classifierSpec req := by
  simp only [inferBusinessType, classifierSpec, categoryTable, List.map,
    List.find?, List.any, Bool.or_false, Bool.or_assoc]
  split_ifs with h1 h2 h3 h4 h5 h6 h7
  · rw [Bool.or_eq_true, Bool.or_eq_true] at h1
    obtain h | h | h := h1 <;> simp_all
  · rw [Bool.or_eq_true, Bool.or_eq_true] at h2
    obtain h | h | h := h2 <;> simp_all
  · rw [Bool.or_eq_true, Bool.or_eq_true] at h3
    obtain h | h | h := h3 <;> simp_all
  · rw [Bool.or_eq_true, Bool.or_eq_true] at h4
    obtain h | h | h := h4 <;> simp_all
  · rw [Bool.or_eq_true, Bool.or_eq_true] at h5
    obtain h | h | h := h5 <;> simp_all
  · rw [Bool.or_eq_true, Bool.or_eq_true] at h6
    obtain h | h | h := h6 <;> simp_all
  · rw [Bool.or_eq_true, Bool.or_eq_true] at h7
    obtain h | h | h := h7 <;> simp_all
  · simp_all

theorem inferBusinessType_mem (req : List Char) :
    inferBusinessType req ∈ businessCategories := by
  simp only [inferBusinessType]
  split_ifs <;> decide

/-- Claim C4: the business-type classifier is total with values among the
eight categories, agrees with the ordered first-matching-category/default
specification, and sends the empty string to `general`. -/
theorem claim_classifier_totality (req : List Char) :
    inferBusinessType req = classifierSpec req ∧
    inferBusinessType req ∈ businessCategories ∧
    inferBusinessType [] = "general".data :=
  ⟨inferBusinessType_eq_spec req, inferBusinessType_mem req, by decide⟩

/-! ## Stage-gating and write-policy theorems -/

/-- Claim C2: with any prerequisite flag false or absent, each remote-writing
stage raises before attempting any remote write, and a chained stage after a
raising one contributes no writes (the chain halts). -/
theorem claim_stage_gating :
    (∀ (inp : FrameworkInput) (ok : List Char → Bool),
      inp.success ≠ some true →
      (initializeFramework inp ok).attempted = [] ∧
      (initializeFramework inp ok).result =
        .error "Repository creation failed, cannot initialize framework".data) ∧
    (∀ (inp : StructureInput) (llm : Except (List Char) (List Char))
      (tok : Bool) (ok : List Char → Bool),
      ¬(inp.success = some true ∧ inp.frameworkInitialized = some true) →
      (generateWebsiteStructure inp llm tok ok).attempted = [] ∧
      (generateWebsiteStructure inp llm tok ok).result =
        .error "Framework initialization failed, cannot generate website".data) ∧
    (∀ (inp : ContentInput) (llm : Except (List Char) (List Char))
      (tok : Bool) (ok : List Char → Bool),
      ¬(inp.success = some true ∧ inp.websiteGenerated = some true) →
      (generateWebsiteContent inp llm tok ok).attempted = [] ∧
      (generateWebsiteContent inp llm tok ok).result =
        .error "Website generation failed, cannot generate content".data) ∧
    (∀ (inp : FinalizeInput) (tok : Bool) (ok : List Char → Bool),
      ¬(inp.success = some true ∧ inp.contentGenerated = some true ∧
        inp.stylingCompleted = some true) →
      (finalizeWebsite inp tok ok).attempted = [] ∧
      (finalizeWebsite inp tok ok).result =
        .error "Previous steps failed, cannot finalize website".data) ∧
    (∀ (α β : Type) (r : StageOutcome α) (next : α → StageOutcome β)
      (e : List Char), r.result = .error e →
      (chainWrites r next).attempted = r.attempted ∧
      (chainWrites r next).result = .error e) := by
  refine ⟨fun inp ok h => ?_, fun inp llm tok ok h => ?_,
    fun inp llm tok ok h => ?_, fun inp tok ok h => ?_,
    fun α β r next e h => ?_⟩
  · simp [initializeFramework, h]
  · simp [generateWebsiteStructure, h]
  · simp [generateWebsiteContent, h]
  · simp [finalizeWebsite, h]
  · simp [chainWrites, h]

/-- Witness for C2 at concrete gated inputs: a `success: false` framework
input, an absent `frameworkInitialized`, a false `websiteGenerated`, a false
`stylingCompleted`, and an erroring first stage in the chain. -/
theorem claim_stage_gating_witness :
    (initializeFramework ⟨[], [], [], [], ⟨none, none, none⟩, some false⟩
      (fun _ => true)).attempted = [] ∧
    (generateWebsiteStructure ⟨[], [], [], [], none, some true⟩ (.ok [])
      true (fun _ => true)).attempted = [] ∧
    (generateWebsiteContent ⟨[], [], [], [], some false, [], some true⟩
      (.ok []) true (fun _ => true)).attempted = [] ∧
    (finalizeWebsite ⟨[], [], [], [], some true, some false, some true⟩
      true (fun _ => true)).attempted = [] ∧
    (chainWrites (⟨[], [], .error []⟩ : StageOutcome Unit)
      (fun _ => (⟨["x".data], [], .ok ()⟩ : StageOutcome Unit))).attempted = [] :=
  ⟨(claim_stage_gating.1 _ _ (by decide)).1,
   (claim_stage_gating.2.1 _ _ _ _ (by decide)).1,
   (claim_stage_gating.2.2.1 _ _ _ _ (by decide)).1,
   (claim_stage_gating.2.2.2.1 _ _ _ (by decide)).1,
   (claim_stage_gating.2.2.2.2 _ _ _ _ _ rfl).1⟩

/-- Claim C6: when the language-model call raises, the structure and content
stages substitute their deterministic fallback analysis text and still
return an output with all their completion flags `true`, not propagating the
error (given the stage otherwise runs: flags satisfied and token present). -/
theorem claim_llm_fallback :
    (∀ (inp : StructureInput) (e : List Char) (ok : List Char → Bool),
      inp.success = some true → inp.frameworkInitialized = some true →
      (generateWebsiteStructure inp (.error e) true ok).analysis =
        structureFallback inp.projectName inp.requirements ∧
      ∃ out, (generateWebsiteStructure inp (.error e) true ok).result = .ok out ∧
        out.success = true ∧ out.websiteGenerated = true) ∧
    (∀ (inp : ContentInput) (e : List Char) (ok : List Char → Bool),
      inp.success = some true → inp.websiteGenerated = some true →
      (generateWebsiteContent inp (.error e) true ok).analysis =
        contentFallback inp.projectName inp.requirements ∧
      ∃ out, (generateWebsiteContent inp (.error e) true ok).result = .ok out ∧
        out.success = true ∧ out.contentGenerated = true ∧
        out.stylingCompleted = true) := by
  constructor
  · intro inp e ok h1 h2
    simp [generateWebsiteStructure, h1, h2]
  · intro inp e ok h1 h2
    simp [generateWebsiteContent, h1, h2]

/-- Witness for C6 at a concrete failing language-model call. -/
theorem claim_llm_fallback_witness :
    (generateWebsiteStructure ⟨[], [], "p".data, "r".data, some true, some true⟩
      (.error "model down".data) true (fun _ => true)).analysis =
      structureFallback "p".data "r".data ∧
    (generateWebsiteContent ⟨[], [], "p".data, "r".data, some true, [], some true⟩
      (.error "model down".data) true (fun _ => true)).analysis =
      contentFallback "p".data "r".data :=
  ⟨(claim_llm_fallback.1 _ _ _ rfl rfl).1, (claim_llm_fallback.2 _ _ _ rfl rfl).1⟩

/-- The fail-fast loop on a list with a failing element: the files up to the
first failing one are attempted, and the loop raises for that file. -/
theorem putFilesFatal_of_find (ok : List Char → Bool) :
    ∀ (ps : List (List Char)) (p0 : List Char),
      ps.find? (fun p => !ok p) = some p0 →
      putFilesFatal ok ps =
        ⟨ps.takeWhile ok ++ [p0], ps.takeWhile ok,
          .error ("Failed to create file ".data ++ p0)⟩ := by
  intro ps
  induction ps with
  | nil => intro p0 h; simp [List.find?] at h
  | cons p ps ih =>
    intro p0 h
    rw [List.find?] at h
    by_cases hp : ok p
    · rw [putFilesFatal, if_pos hp]
      simp only [hp, Bool.not_true] at h
      rw [ih p0 h]
      simp [List.takeWhile_cons, hp]
    · simp only [Bool.not_eq_true', Bool.not_eq_false] at hp
      simp only [hp, Bool.not_false] at h
      injection h with h
      subst h
      rw [putFilesFatal]
      simp [hp, List.takeWhile_cons]

/-- Claim C7: a failed per-file write is fatal in the framework-scaffolding
stage (the stage raises at the first failing file and attempts nothing
after it), while in the structure, content, and finalize stages every file
is attempted, failed files are merely skipped, and the stage still returns
`success: true`. -/
theorem claim_write_failure_policy :
    (∀ (inp : FrameworkInput) (ok : List Char → Bool) (p0 : List Char),
      inp.success = some true →
      frameworkFilePaths.find? (fun p => !ok p) = some p0 →
      (initializeFramework inp ok).attempted =
        frameworkFilePaths.takeWhile ok ++ [p0] ∧
      (initializeFramework inp ok).result =
        .error ("Failed to create file ".data ++ p0)) ∧
    (∀ (inp : StructureInput) (llm : Except (List Char) (List Char))
      (ok : List Char → Bool),
      inp.success = some true → inp.frameworkInitialized = some true →
      (generateWebsiteStructure inp llm true ok).attempted = structureFilePaths ∧
      (generateWebsiteStructure inp llm true ok).succeeded =
        structureFilePaths.filter ok ∧
      ∃ out, (generateWebsiteStructure inp llm true ok).result = .ok out ∧
        out.success = true) ∧
    (∀ (inp : ContentInput) (llm : Except (List Char) (List Char))
      (ok : List Char → Bool),
      inp.success = some true → inp.websiteGenerated = some true →
      (generateWebsiteContent inp llm true ok).attempted = contentFilePaths ∧
      (generateWebsiteContent inp llm true ok).succeeded =
        contentFilePaths.filter ok ∧
      ∃ out, (generateWebsiteContent inp llm true ok).result = .ok out ∧
        out.success = true) ∧
    (∀ (inp : FinalizeInput) (ok : List Char → Bool),
      inp.success = some true → inp.contentGenerated = some true →
      inp.stylingCompleted = some true →
      (finalizeWebsite inp true ok).attempted = finalizeFilePaths ∧
      (finalizeWebsite inp true ok).succeeded = finalizeFilePaths.filter ok ∧
      ∃ out, (finalizeWebsite inp true ok).result = .ok out ∧
        out.success = true) := by
  refine ⟨fun inp ok p0 hs hf => ?_, fun inp llm ok h1 h2 => ?_,
    fun inp llm ok h1 h2 => ?_, fun inp ok h1 h2 h3 => ?_⟩
  · rw [initializeFramework, if_pos hs, putFilesFatal_of_find ok _ _ hf]
    exact ⟨rfl, rfl⟩
  · simp [generateWebsiteStructure, h1, h2]
  · simp [generateWebsiteContent, h1, h2]
  · simp [finalizeWebsite, h1, h2, h3]

/-- Witness for C7: a responder that fails exactly on `index.html` aborts the
framework stage there, while the same responder leaves the finalize stage
successful with every path attempted. -/
theorem claim_write_failure_policy_witness :
    (initializeFramework ⟨[], [], [], [], ⟨none, none, none⟩, some true⟩
      (fun p => !decide (p = "index.html".data))).attempted =
      ["package.json".data, "index.html".data] ∧
    (finalizeWebsite ⟨[], [], [], [], some true, some true, some true⟩ true
      (fun p => !decide (p = "index.html".data))).attempted =
      finalizeFilePaths := by
  constructor
  · have h := (claim_write_failure_policy.1
      ⟨[], [], [], [], ⟨none, none, none⟩, some true⟩
      (fun p => !decide (p = "index.html".data)) "index.html".data rfl
      (by decide)).1
    rw [h]; decide
  · exact (claim_write_failure_policy.2.2.2
      ⟨[], [], [], [], some true, some true, some true⟩
      (fun p => !decide (p = "index.html".data)) rfl rfl rfl).1

/-! ## Parse-stage scenario theorems -/

/-- Counterexample to claim C3 as stated: on the empty report the parse
stage raises (it does not return extracted info or a date-fallback name). -/
theorem claim_empty_report_counterexample :
    parseRequirements 0 "20250101".data [] =
      .error "Requirements report is required but was not provided or is empty".data :=
  rfl

/-- Claim C3 as amended: the empty-string report makes the parse stage raise
its missing-report error (so no extracted info and no project name are
produced), while the business classifier on the empty string still returns
`general`. -/
theorem claim_empty_report_amended (now : Nat) (today : List Char) :
    parseRequirements now today [] =
      .error "Requirements report is required but was not provided or is empty".data ∧
    inferBusinessType [] = "general".data :=
  ⟨by simp [parseRequirements], by decide⟩

/-- A non-empty sanitized name is returned as is (the timestamp fallback is
not consulted). -/
theorem sanitize_eq_of_core (now : Nat) (name r : List Char)
    (h : sanitizeCore name = r) (hr : r ≠ []) :
    sanitizeProjectName now name = r := by
  rw [sanitizeProjectName, h, if_neg]
  simp [hr]

/-- Claim C9: on a purpose whose synthesized-and-sanitized name is non-empty,
the name synthesis is a pure function of the purpose text — two runs at
different times return the same slug. -/
theorem claim_idempotent_naming (purpose ta : List Char) (now1 now2 : Nat)
    (h : sanitizeCore (generateConciseProjectName purpose ta) ≠ []) :
    sanitizeProjectName now1 (generateConciseProjectName purpose ta) =
      sanitizeProjectName now2 (generateConciseProjectName purpose ta) := by
  rw [sanitize_eq_of_core now1 _ _ rfl h, sanitize_eq_of_core now2 _ _ rfl h]

/-- Witness for C9 at a concrete purpose whose sanitized name is non-empty. -/
theorem claim_idempotent_naming_witness :
    sanitizeCore (generateConciseProjectName "portfolio for artists".data []) ≠ [] ∧
    sanitizeProjectName 0 (generateConciseProjectName "portfolio for artists".data []) =
      sanitizeProjectName 987654321
        (generateConciseProjectName "portfolio for artists".data []) :=
  ⟨by decide, claim_idempotent_naming _ _ 0 987654321 (by decide)⟩

/-- Claim C8: on the full-report scenario line, the parse stage extracts the
purpose sentence verbatim, the classifier says `creative`, and the
synthesized name is the 25-character slug `portfolio-modern-freelanc` —
hyphen-joined non-stopword terms with `portfolio` first. -/
theorem claim_full_report_scenario (now : Nat) (today : List Char) :
    parseRequirements now today fullReportC8 =
      .ok { projectName := "portfolio-modern-freelanc".data
            requirements := fullReportC8
            extractedInfo := ⟨some purposeC8, none, none⟩
            success := true } ∧
    ("portfolio-modern-freelanc".data).length ≤ 25 ∧
    startsWithL "portfolio-modern-freelanc".data "portfolio".data = true ∧
    matchesSlug "portfolio-modern-freelanc".data = true ∧
    inferBusinessType fullReportC8 = "creative".data := by
  refine ⟨?_, by decide, by decide, by decide, by decide⟩
  have hg : (fullReportC8.isEmpty || (trimL fullReportC8).isEmpty) = false := by decide
  have hv : parseVarsOf fullReportC8 = ⟨[], purposeC8, [], []⟩ := by decide
  have hn : nameFromVars today (⟨[], purposeC8, [], []⟩ : ParseVars) =
      "portfolio-modern-freelance".data := by
    have hgc : generateConciseProjectName purposeC8 [] =
        "portfolio-modern-freelance".data := by decide
    have hcond : (([] : List Char).isEmpty && !purposeC8.isEmpty) = true := by decide
    simp only [nameFromVars, hcond, if_true]
    rw [hgc, if_neg (by decide)]
  have hs : sanitizeProjectName now "portfolio-modern-freelance".data =
      "portfolio-modern-freelanc".data :=
    sanitize_eq_of_core _ _ _ (by decide) (by decide)
  rw [parseRequirements, hg]
  simp only [Bool.false_eq_true, if_false, hv, hn, hs]
  have h1 : optOf purposeC8 = some purposeC8 := by decide
  have h2 : optOf [] = none := rfl
  rw [h1, h2]

/-! ## Characterizing the line scan of the parse stage -/

theorem startsWithL_iff : ∀ (l pat : List Char), startsWithL l pat = true ↔ pat <+: l := by
  intro l
  induction l with
  | nil =>
    intro pat
    cases pat with
    | nil => simp [startsWithL]
    | cons d ds => simp [startsWithL]
  | cons c cs ih =>
    intro pat
    cases pat with
    | nil => simp [startsWithL, List.nil_prefix]
    | cons d ds =>
      simp only [startsWithL, Bool.and_eq_true, decide_eq_true_eq,
        List.cons_prefix_cons, ih]
      exact and_congr_left (fun _ => eq_comm)

theorem includesL_iff_occurs : ∀ (l pat : List Char), includesL l pat = true ↔ pat <:+: l := by
  intro l
  induction l with
  | nil =>
    intro pat
    rw [includesL, startsWithL_iff]
    constructor
    · exact fun h => h.isInfix
    · intro h
      rw [List.eq_nil_of_infix_nil h]
  | cons c t ih =>
    intro pat
    rw [includesL, Bool.or_eq_true, startsWithL_iff, ih]
    exact List.infix_cons_iff.symm

theorem includesL_of_includes_append (l x pat : List Char)
    (h : includesL l (x ++ pat) = true) : includesL l pat = true := by
  rw [includesL_iff_occurs] at h ⊢
  exact (List.suffix_append x pat).isInfix.trans h

/-- The redundant disjunct of each label test (the label prefixed with a
dash) is subsumed by the plain label test. -/
theorem includes_dash_or (ln pat : List Char) :
    (includesL ln pat || includesL ln ("- ".data ++ pat)) = includesL ln pat := by
  cases h : includesL ln pat
  · rw [Bool.false_or]
    cases h2 : includesL ln ("- ".data ++ pat)
    · rfl
    · exact absurd (includesL_of_includes_append _ _ _ h2) (by simp [h])
  · rfl

theorem getD_getLast?_cons {α : Type} (a d : α) :
    ∀ t : List α, ((a :: t).getLast?).getD d = (t.getLast?).getD a := by
  intro t
  induction t generalizing a d with
  | nil => rfl
  | cons x xs ih =>
    rw [List.getLast?_cons_cons, ih x d, ih x a]

theorem filterMap_guard {α β : Type} (p : α → Bool) (f : α → β) :
    ∀ l : List α,
      l.filterMap (fun x => if p x then some (f x) else none) =
        (l.filter p).map f := by
  intro l
  induction l with
  | nil => rfl
  | cons x xs ih =>
    cases hx : p x with
    | false => simp [List.filterMap_cons, List.filter_cons, hx, ih]
    | true => simp [List.filterMap_cons, List.filter_cons, hx, ih]

/-- Folding the line processor computes, for any single-field observation
whose per-line update is described by `g`, the last update `g` yields. -/
theorem foldl_lastUpdate {α : Type} (g : List Char → Option α) (proj : ParseVars → α)
    (hstep : ∀ v raw, proj (processLine v raw) = (g raw).getD (proj v)) :
    ∀ (lines : List (List Char)) (v : ParseVars),
      proj (lines.foldl processLine v) = ((lines.filterMap g).getLast?).getD (proj v) := by
  intro lines
  induction lines with
  | nil => intro v; rfl
  | cons raw ls ih =>
    intro v
    rw [List.foldl_cons, ih, List.filterMap_cons, hstep]
    cases hgr : g raw with
    | none => rfl
    | some a => rw [getD_getLast?_cons]; rfl

theorem processLine_purpose (v : ParseVars) (raw : List Char) :
    (processLine v raw).purpose =
      ((if includesL (trimL raw) purposeLabel ||
          includesL (trimL raw) ("- ".data ++ purposeLabel) then
        some (trimL (stripThrough purposeLabel (trimL raw))) else none)).getD v.purpose := by
  simp only [processLine]
  split_ifs <;> rfl

theorem processLine_audience (v : ParseVars) (raw : List Char) :
    (processLine v raw).targetAudience =
      ((if includesL (trimL raw) audienceLabel ||
          includesL (trimL raw) ("- ".data ++ audienceLabel) then
        some (trimL (stripThrough audienceLabel (trimL raw))) else none)).getD
        v.targetAudience := by
  simp only [processLine]
  split_ifs <;> rfl

theorem processLine_objectives (v : ParseVars) (raw : List Char) :
    (processLine v raw).businessObjectives =
      ((if includesL (trimL raw) objectivesLabel ||
          includesL (trimL raw) ("- ".data ++ objectivesLabel) then
        some (trimL (stripThrough objectivesLabel (trimL raw))) else none)).getD
        v.businessObjectives := by
  simp only [processLine]
  split_ifs <;> rfl

theorem processLine_projectName (v : ParseVars) (raw : List Char) :
    (processLine v raw).projectName = (explicitNameOf raw).getD v.projectName := by
  simp only [processLine, explicitNameOf]
  split_ifs <;> rfl

/-- The final value of one labelled-field variable: the strip-and-trim value
of the last trimmed line containing the label (the empty string when no line
does). Stated for the generic label/value pair of the three field updates. -/
theorem parseVars_field (report : List Char) (label : List Char)
    (proj : ParseVars → List Char)
    (hstep : ∀ v raw, proj (processLine v raw) =
      ((if includesL (trimL raw) label ||
          includesL (trimL raw) ("- ".data ++ label) then
        some (trimL (stripThrough label (trimL raw))) else none)).getD (proj v))
    (hinit : proj ⟨[], [], [], []⟩ = []) :
    proj (parseVarsOf report) =
      (((((splitOnChar '\n' report).map trimL).filter
          (fun ln => includesL ln label)).getLast?).map
        (fun ln => trimL (stripThrough label ln))).getD [] := by
  rw [parseVarsOf, foldl_lastUpdate
    (fun raw => if includesL (trimL raw) label ||
        includesL (trimL raw) ("- ".data ++ label) then
      some (trimL (stripThrough label (trimL raw))) else none) proj hstep, hinit]
  have h1 : (splitOnChar '\n' report).filterMap
      (fun raw => if includesL (trimL raw) label ||
          includesL (trimL raw) ("- ".data ++ label) then
        some (trimL (stripThrough label (trimL raw))) else none) =
      (((splitOnChar '\n' report).map trimL).filter
        (fun ln => includesL ln label)).map
        (fun ln => trimL (stripThrough label ln)) := by
    have hcomp : (fun raw => if includesL (trimL raw) label ||
        includesL (trimL raw) ("- ".data ++ label) then
      some (trimL (stripThrough label (trimL raw))) else none) =
        ((fun ln => if includesL ln label || includesL ln ("- ".data ++ label) then
          some (trimL (stripThrough label ln)) else none) ∘ trimL) := rfl
    rw [hcomp, ← List.filterMap_map trimL
      (fun ln => if includesL ln label || includesL ln ("- ".data ++ label) then
        some (trimL (stripThrough label ln)) else none) (splitOnChar '\n' report),
      filterMap_guard]
    congr 1
    apply List.filter_congr
    intro ln _
    exact includes_dash_or ln label
  rw [h1, List.getLast?_map]

theorem parseVars_purpose (report : List Char) :
    (parseVarsOf report).purpose =
      (((((splitOnChar '\n' report).map trimL).filter
          (fun ln => includesL ln purposeLabel)).getLast?).map
        (fun ln => trimL (stripThrough purposeLabel ln))).getD [] :=
  parseVars_field report purposeLabel ParseVars.purpose processLine_purpose rfl

theorem parseVars_audience (report : List Char) :
    (parseVarsOf report).targetAudience =
      (((((splitOnChar '\n' report).map trimL).filter
          (fun ln => includesL ln audienceLabel)).getLast?).map
        (fun ln => trimL (stripThrough audienceLabel ln))).getD [] :=
  parseVars_field report audienceLabel ParseVars.targetAudience processLine_audience rfl

theorem parseVars_objectives (report : List Char) :
    (parseVarsOf report).businessObjectives =
      (((((splitOnChar '\n' report).map trimL).filter
          (fun ln => includesL ln objectivesLabel)).getLast?).map
        (fun ln => trimL (stripThrough objectivesLabel ln))).getD [] :=
  parseVars_field report objectivesLabel ParseVars.businessObjectives
    processLine_objectives rfl

theorem parseVars_projectName (report : List Char) :
    (parseVarsOf report).projectName =
      (((splitOnChar '\n' report).filterMap explicitNameOf).getLast?).getD [] :=
  foldl_lastUpdate explicitNameOf ParseVars.projectName processLine_projectName
    (splitOnChar '\n' report) ⟨[], [], [], []⟩

/-- Counterexample to claim C5 as stated: in the two-line report
`"Main purpose/goal: x\nMain purpose/goal:"` the last line containing the
label has an empty remainder, and the returned purpose field is absent —
not the last matching line's value (and not the earlier line's `x`). -/
theorem claim_field_extraction_counterexample :
    ((((((splitOnChar '\n' "Main purpose/goal: x\nMain purpose/goal:".data).map
        trimL).filter (fun ln => includesL ln purposeLabel)).getLast?).map
      (fun ln => trimL (stripThrough purposeLabel ln))) = some []) ∧
    parseRequirements 0 "20250101".data
        "Main purpose/goal: x\nMain purpose/goal:".data =
      .ok { projectName := "website-20250101".data
            requirements := "Main purpose/goal: x\nMain purpose/goal:".data
            extractedInfo := ⟨none, none, none⟩
            success := true } :=
  ⟨by decide, rfl⟩

/-- Claim C5 as amended: each labelled field of the parse output equals the
strip-and-trim value of the last trimmed line containing its label, except
that an empty value — like no matching line at all — leaves the field
absent (never `null`, never the empty string). -/
theorem claim_field_extraction_amended (now : Nat) (today report : List Char)
    (h : (trimL report).isEmpty = false) :
    ∃ out, parseRequirements now today report = .ok out ∧
      out.extractedInfo.purpose = fieldValueSpec purposeLabel report ∧
      out.extractedInfo.targetAudience = fieldValueSpec audienceLabel report ∧
      out.extractedInfo.businessObjectives = fieldValueSpec objectivesLabel report := by
  have hrep : report.isEmpty = false := by
    cases report with
    | nil => exact absurd h (by decide)
    | cons a as => rfl
  have hguard : (report.isEmpty || (trimL report).isEmpty) = false := by
    rw [hrep, h]; rfl
  rw [parseRequirements, hguard]
  simp only [Bool.false_eq_true, if_false]
  refine ⟨_, rfl, ?_, ?_, ?_⟩
  · rw [parseVars_purpose, fieldValueSpec]
    cases hL : ((((splitOnChar '\n' report).map trimL).filter
        (fun ln => includesL ln purposeLabel)).getLast?) with
    | none => rfl
    | some ln => rfl
  · rw [parseVars_audience, fieldValueSpec]
    cases hL : ((((splitOnChar '\n' report).map trimL).filter
        (fun ln => includesL ln audienceLabel)).getLast?) with
    | none => rfl
    | some ln => rfl
  · rw [parseVars_objectives, fieldValueSpec]
    cases hL : ((((splitOnChar '\n' report).map trimL).filter
        (fun ln => includesL ln objectivesLabel)).getLast?) with
    | none => rfl
    | some ln => rfl

/-- Witness for the amended C5 at a concrete two-label report. -/
theorem claim_field_extraction_amended_witness :
    ∃ out, parseRequirements 0 "20250101".data
        "Target audience: devs\nMain purpose/goal: a blog".data = .ok out ∧
      out.extractedInfo.purpose =
        fieldValueSpec purposeLabel
          "Target audience: devs\nMain purpose/goal: a blog".data ∧
      out.extractedInfo.targetAudience =
        fieldValueSpec audienceLabel
          "Target audience: devs\nMain purpose/goal: a blog".data ∧
      out.extractedInfo.businessObjectives =
        fieldValueSpec objectivesLabel
          "Target audience: devs\nMain purpose/goal: a blog".data :=
  claim_field_extraction_amended 0 "20250101".data _ (by decide)

/-- An explicit name contributed by a line is never the empty string. -/
theorem explicitNameOf_ne_nil (raw nm : List Char)
    (h : explicitNameOf raw = some nm) : nm ≠ [] := by
  simp only [explicitNameOf] at h
  by_cases h1 : (includesL (lowerL (trimL raw)) "project name:".data ||
      includesL (lowerL (trimL raw)) "website name:".data) = true
  · rw [if_pos h1] at h
    by_cases h2 : (trimL (stripNameLabel (trimL raw))).isEmpty = true
    · rw [if_pos h2] at h
      exact absurd h (by simp)
    · rw [if_neg h2] at h
      intro hnil
      apply h2
      rw [Option.some_inj.mp h, hnil]
      rfl
  · rw [if_neg h1] at h
    exact absurd h (by simp)

theorem mem_of_getLast?_eq {α : Type} (l : List α) (a : α)
    (h : l.getLast? = some a) : a ∈ l := by
  obtain ⟨hne, rfl⟩ := List.mem_getLast?_eq_getLast (Option.mem_def.mpr h)
  exact List.getLast_mem hne

/-- Claim C10: a non-empty explicit `project name:`/`website name:` line
determines the project name (sanitized, last such line winning), bypassing
the purpose-derived synthesizer; the synthesizer runs only when no such
line contributes. -/
theorem claim_explicit_name_overrides (now : Nat) (today report : List Char)
    (h : (trimL report).isEmpty = false) :
    (∀ nm, (((splitOnChar '\n' report).filterMap explicitNameOf).getLast? = some nm) →
      ∃ out, parseRequirements now today report = .ok out ∧
        out.projectName = sanitizeProjectName now nm) ∧
    ((((splitOnChar '\n' report).filterMap explicitNameOf).getLast? = none) →
      (parseVarsOf report).purpose ≠ [] →
      ∃ out, parseRequirements now today report = .ok out ∧
        out.projectName = sanitizeProjectName now
          (if (generateConciseProjectName (parseVarsOf report).purpose
              (parseVarsOf report).targetAudience).isEmpty then websiteFallback today
           else generateConciseProjectName (parseVarsOf report).purpose
              (parseVarsOf report).targetAudience)) := by
  have hrep : report.isEmpty = false := by
    cases report with
    | nil => exact absurd h (by decide)
    | cons a as => rfl
  have hguard : (report.isEmpty || (trimL report).isEmpty) = false := by
    rw [hrep, h]; rfl
  constructor
  · intro nm hnm
    have hpn : (parseVarsOf report).projectName = nm := by
      rw [parseVars_projectName, hnm]; rfl
    have hne : nm ≠ [] := by
      obtain ⟨raw, _, hraw⟩ := List.mem_filterMap.mp
        (mem_of_getLast?_eq _ _ hnm)
      exact explicitNameOf_ne_nil raw nm hraw
    rw [parseRequirements, hguard]
    simp only [Bool.false_eq_true, if_false]
    refine ⟨_, rfl, ?_⟩
    have hn1 : nameFromVars today (parseVarsOf report) = nm := by
      rw [nameFromVars, hpn]
      rw [if_neg (by simp [List.isEmpty_eq_false.mpr hne]),
        if_neg (by simp [List.isEmpty_eq_false.mpr hne])]
    rw [hn1]
  · intro hnone hpur
    have hpn : (parseVarsOf report).projectName = [] := by
      rw [parseVars_projectName, hnone]; rfl
    rw [parseRequirements, hguard]
    simp only [Bool.false_eq_true, if_false]
    refine ⟨_, rfl, ?_⟩
    have hn1 : nameFromVars today (parseVarsOf report) =
        (if (generateConciseProjectName (parseVarsOf report).purpose
            (parseVarsOf report).targetAudience).isEmpty then websiteFallback today
         else generateConciseProjectName (parseVarsOf report).purpose
            (parseVarsOf report).targetAudience) := by
      have hcond : ((([] : List Char).isEmpty &&
          !(parseVarsOf report).purpose.isEmpty)) = true := by
        simp [List.isEmpty_eq_false.mpr hpur]
      rw [nameFromVars, hpn, hcond, if_pos rfl]
    rw [hn1]

/-- Witness for C10: with two explicit-name lines the later one wins and is
sanitized (and the line scan indeed collects both names). -/
theorem claim_explicit_name_overrides_witness :
    ∃ out, parseRequirements 0 "20250101".data
        "Project name: Alpha One\nwebsite name: Beta Site!".data = .ok out ∧
      out.projectName = sanitizeProjectName 0 "Beta Site!".data :=
  (claim_explicit_name_overrides 0 "20250101".data _ (by decide)).1
    "Beta Site!".data (by decide)

/-! ## Sanitizer slug-validity development -/

theorem word_ne_hyphen (c : Char) (h : isWordChar c = true) : c ≠ '-' := by
  intro hc
  rw [hc] at h
  exact absurd h (by decide)

theorem word_not_upper_space (c : Char) (h : isWordChar c = true) :
    isUpperCh c = false ∧ jsIsSpace c = false := by
  simp only [isWordChar, Bool.or_eq_true, Bool.and_eq_true, decide_eq_true_eq] at h
  constructor
  · rw [Bool.eq_false_iff]
    intro hu
    simp only [isUpperCh, Bool.and_eq_true, decide_eq_true_eq] at hu
    omega
  · rw [Bool.eq_false_iff]
    intro hs
    simp only [jsIsSpace, Bool.or_eq_true, Bool.and_eq_true, decide_eq_true_eq] at hs
    omega

theorem digit_not_upper_space_hyphen (c : Char) (h48 : 48 ≤ c.toNat)
    (h57 : c.toNat ≤ 57) :
    isUpperCh c = false ∧ jsIsSpace c = false ∧ c ≠ '-' := by
  refine ⟨?_, ?_, ?_⟩
  · rw [Bool.eq_false_iff]
    intro hu
    simp only [isUpperCh, Bool.and_eq_true, decide_eq_true_eq] at hu
    omega
  · rw [Bool.eq_false_iff]
    intro hs
    simp only [jsIsSpace, Bool.or_eq_true, Bool.and_eq_true, decide_eq_true_eq] at hs
    omega
  · intro hc
    rw [hc] at h48
    exact absurd h48 (by decide)

theorem mem_replaceRunsGo (p : Char → Bool) (r : Char) :
    ∀ (l : List Char) (b : Bool) (c : Char), c ∈ replaceRunsGo p r b l →
      c = r ∨ (c ∈ l ∧ p c = false) := by
  intro l
  induction l with
  | nil => intro b c hc; exact absurd hc (by simp [replaceRunsGo])
  | cons a as ih =>
    intro b c hc
    rw [replaceRunsGo] at hc
    by_cases hpa : p a = true
    · rw [if_pos hpa] at hc
      cases b with
      | true =>
        rcases ih true c hc with h | ⟨hm, hp⟩
        · exact Or.inl h
        · exact Or.inr ⟨List.mem_cons_of_mem a hm, hp⟩
      | false =>
        rcases List.mem_cons.mp hc with rfl | hc2
        · exact Or.inl rfl
        · rcases ih true c hc2 with h | ⟨hm, hp⟩
          · exact Or.inl h
          · exact Or.inr ⟨List.mem_cons_of_mem a hm, hp⟩
    · rw [if_neg hpa] at hc
      rcases List.mem_cons.mp hc with rfl | hc2
      · exact Or.inr ⟨List.mem_cons_self _ _, Bool.eq_false_iff.mpr hpa⟩
      · rcases ih false c hc2 with h | ⟨hm, hp⟩
        · exact Or.inl h
        · exact Or.inr ⟨List.mem_cons_of_mem a hm, hp⟩

theorem head_replaceRunsGo_inRun (p : Char → Bool) (r : Char) :
    ∀ (l : List Char) (h0 : Char),
      (replaceRunsGo p r true l).head? = some h0 → p h0 = false := by
  intro l
  induction l with
  | nil => intro h0 h; exact absurd h (by simp [replaceRunsGo])
  | cons a as ih =>
    intro h0 h
    rw [replaceRunsGo] at h
    by_cases hpa : p a = true
    · rw [if_pos hpa, if_pos rfl] at h
      exact ih h0 h
    · rw [if_neg hpa] at h
      injection h with h
      rw [← h]
      exact Bool.eq_false_iff.mpr hpa

/-- Unfolding for the two-element pattern of `noAdjHyphen`. -/
theorem noAdjHyphen_cons_cons (c d : Char) (rest : List Char) :
    noAdjHyphen (c :: d :: rest) =
      (!(c = '-' && d = '-') && noAdjHyphen (d :: rest)) := rfl

theorem noAdj_tail (c : Char) (l : List Char)
    (h : noAdjHyphen (c :: l) = true) : noAdjHyphen l = true := by
  cases l with
  | nil => rfl
  | cons d ds =>
    rw [noAdjHyphen_cons_cons, Bool.and_eq_true] at h
    exact h.2

theorem noAdj_cons_of (c : Char) (l : List Char)
    (hc : c ≠ '-' ∨ (∀ d, l.head? = some d → d ≠ '-'))
    (hl : noAdjHyphen l = true) : noAdjHyphen (c :: l) = true := by
  cases l with
  | nil => rfl
  | cons d ds =>
    rw [noAdjHyphen_cons_cons, Bool.and_eq_true]
    refine ⟨?_, hl⟩
    rcases hc with hc | hd
    · simp [hc]
    · simp [hd d rfl]

theorem noAdj_of_all_ne (l : List Char) (h : ∀ c ∈ l, c ≠ '-') :
    noAdjHyphen l = true := by
  induction l with
  | nil => rfl
  | cons c cs ih =>
    exact noAdj_cons_of c cs (Or.inl (h c (List.mem_cons_self _ _)))
      (ih fun d hd => h d (List.mem_cons_of_mem c hd))

theorem noAdj_replaceRunsGo (l : List Char) :
    ∀ b, noAdjHyphen (replaceRunsGo isHyphen '-' b l) = true := by
  induction l with
  | nil => intro b; rfl
  | cons a as ih =>
    intro b
    rw [replaceRunsGo]
    by_cases hpa : isHyphen a = true
    · rw [if_pos hpa]
      cases b with
      | true => exact ih true
      | false =>
        rw [if_neg (by simp)]
        refine noAdj_cons_of _ _ (Or.inr ?_) (ih true)
        intro d hd
        have := head_replaceRunsGo_inRun isHyphen '-' as d hd
        simpa [isHyphen] using this
    · rw [if_neg hpa]
      refine noAdj_cons_of _ _ (Or.inl ?_) (ih false)
      simpa [isHyphen] using hpa

theorem noAdj_dropWhile (p : Char → Bool) (l : List Char)
    (h : noAdjHyphen l = true) : noAdjHyphen (l.dropWhile p) = true := by
  induction l with
  | nil => rfl
  | cons c cs ih =>
    rw [List.dropWhile_cons]
    by_cases hc : p c = true
    · rw [if_pos hc]
      exact ih (noAdj_tail c cs h)
    · rw [if_neg hc]
      exact h

theorem noAdj_take (l : List Char) (h : noAdjHyphen l = true) :
    ∀ n, noAdjHyphen (l.take n) = true := by
  induction l with
  | nil => intro n; rw [List.take_nil]; rfl
  | cons c cs ih =>
    intro n
    cases n with
    | zero => rfl
    | succ m =>
      rw [List.take_succ_cons]
      cases cs with
      | nil =>
        rw [List.take_nil]; rfl
      | cons d ds =>
        cases m with
        | zero => rfl
        | succ k =>
          rw [List.take_succ_cons]
          rw [noAdjHyphen_cons_cons, Bool.and_eq_true]
          constructor
          · rw [noAdjHyphen_cons_cons, Bool.and_eq_true] at h
            exact h.1
          · have := ih (noAdj_tail c (d :: ds) h) (k + 1)
            rwa [List.take_succ_cons] at this

theorem noAdj_append_left (xs ys : List Char)
    (h : noAdjHyphen (xs ++ ys) = true) : noAdjHyphen xs = true := by
  have := noAdj_take (xs ++ ys) h xs.length
  rwa [List.take_left] at this

theorem not_includes_dd_of_noAdj :
    ∀ l : List Char, noAdjHyphen l = true → includesL l ('-' :: '-' :: []) = false := by
  intro l
  induction l with
  | nil => intro h; rfl
  | cons c cs ih =>
    intro h
    rw [includesL, Bool.or_eq_false_iff]
    constructor
    · cases cs with
      | nil => simp [startsWithL]
      | cons d ds =>
        rw [noAdjHyphen_cons_cons, Bool.and_eq_true] at h
        have h1 : ¬c = '-' ∨ ¬d = '-' := by simpa using h.1
        rw [startsWithL, startsWithL]
        rcases h1 with hc | hd
        · simp [hc]
        · simp [hd]
    · exact ih (noAdj_tail c cs h)

theorem dropTrailingWhile_prefixOf (p : Char → Bool) :
    ∀ l : List Char, dropTrailingWhile p l <+: l := by
  intro l
  induction l with
  | nil => exact List.prefix_refl _
  | cons c cs ih =>
    rw [dropTrailingWhile]
    cases hr : dropTrailingWhile p cs with
    | nil =>
      by_cases hc : p c = true
      · rw [if_pos hc]
        exact List.nil_prefix
      · rw [if_neg hc]
        exact List.cons_prefix_cons.mpr ⟨rfl, List.nil_prefix⟩
    | cons r rs =>
      exact List.cons_prefix_cons.mpr ⟨rfl, hr ▸ ih⟩

theorem getLast_dropTrailingWhile (p : Char → Bool) :
    ∀ (l : List Char) (x : Char),
      (dropTrailingWhile p l).getLast? = some x → p x = false := by
  intro l
  induction l with
  | nil => intro x h; exact absurd h (by simp [dropTrailingWhile])
  | cons c cs ih =>
    intro x h
    rw [dropTrailingWhile] at h
    cases hr : dropTrailingWhile p cs with
    | nil =>
      rw [hr] at h
      by_cases hc : p c = true
      · rw [if_pos hc] at h
        exact absurd h (by simp)
      · rw [if_neg hc] at h
        injection h with h
        rw [← h]
        exact Bool.eq_false_iff.mpr hc
    | cons r rs =>
      rw [hr, List.getLast?_cons_cons] at h
      exact ih x (hr ▸ h)

theorem head_dropWhile_not (p : Char → Bool) :
    ∀ (l : List Char) (h0 : Char),
      (l.dropWhile p).head? = some h0 → p h0 = false := by
  intro l
  induction l with
  | nil => intro h0 h; exact absurd h (by simp)
  | cons c cs ih =>
    intro h0 h
    rw [List.dropWhile_cons] at h
    by_cases hc : p c = true
    · rw [if_pos hc] at h
      exact ih h0 h
    · rw [if_neg hc] at h
      injection h with h
      rw [← h]
      exact Bool.eq_false_iff.mpr hc

theorem prefix_head_eq {r l : List Char} (hp : r <+: l) (h0 : Char)
    (h : r.head? = some h0) : l.head? = some h0 := by
  obtain ⟨t, rfl⟩ := hp
  cases r with
  | nil => exact absurd h (by simp)
  | cons a as => exact h

/-- A non-empty string of word characters and isolated hyphens that neither
starts nor ends with a hyphen matches the slug regex. The two conjuncts walk
the automaton from its two states. -/
theorem slugOk_of_invariants :
    ∀ l : List Char,
      (∀ c ∈ l, isWordChar c = true ∨ c = '-') →
      noAdjHyphen l = true →
      (∀ x, l.getLast? = some x → x ≠ '-') →
      (slugOk true l = true ∧
       (∀ h0, l.head? = some h0 → isWordChar h0 = true → slugOk false l = true)) := by
  intro l
  induction l with
  | nil =>
    intro _ _ _
    exact ⟨rfl, fun h0 h => absurd h (by simp)⟩
  | cons c cs ih =>
    intro hchars hnoAdj hlast
    have hcs_chars : ∀ x ∈ cs, isWordChar x = true ∨ x = '-' :=
      fun x hx => hchars x (List.mem_cons_of_mem c hx)
    have hcs_last : ∀ x, cs.getLast? = some x → x ≠ '-' := by
      intro x hx
      apply hlast
      cases cs with
      | nil => exact absurd hx (by simp)
      | cons d ds => rw [List.getLast?_cons_cons]; exact hx
    obtain ⟨ihT, ihF⟩ := ih hcs_chars (noAdj_tail c cs hnoAdj) hcs_last
    have hmain : slugOk true (c :: cs) = true := by
      rw [slugOk]
      by_cases hc : c = '-'
      · rw [if_pos hc]
        cases hcs : cs with
        | nil =>
          exact absurd hc (hlast c (by rw [hcs]; rfl))
        | cons d ds =>
          have hd : d ≠ '-' := by
            rw [hcs] at hnoAdj
            rw [noAdjHyphen_cons_cons, Bool.and_eq_true] at hnoAdj
            intro hdh
            rw [hc, hdh] at hnoAdj
            exact absurd hnoAdj.1 (by decide)
          have hdmem : d ∈ c :: cs := by
            rw [hcs]
            exact List.mem_cons_of_mem c (List.mem_cons_self d ds)
          have hdw : isWordChar d = true := by
            rcases hchars d hdmem with hw | hh
            · exact hw
            · exact absurd hh hd
          have := ihF d (by rw [hcs]; rfl) hdw
          rw [hcs] at this
          simp [this]
      · rw [if_neg hc]
        have hcw : isWordChar c = true := by
          rcases hchars c (List.mem_cons_self c cs) with hw | hh
          · exact hw
          · exact absurd hh hc
        simp [hcw, ihT]
    refine ⟨hmain, ?_⟩
    intro h0 hh0 hword
    have hc0 : h0 = c := by
      rw [List.head?_cons] at hh0
      injection hh0 with h
      exact h.symm
    rw [slugOk, if_neg (hc0 ▸ word_ne_hyphen h0 hword)]
    simp [hc0 ▸ hword, ihT]

/-- The invariants the sanitizing pipeline establishes: only word characters
and isolated hyphens, no leading or trailing hyphen, and length at most 25. -/
theorem sanitizeCore_invariants (name : List Char) :
    (∀ c ∈ sanitizeCore name, isWordChar c = true ∨ c = '-') ∧
    noAdjHyphen (sanitizeCore name) = true ∧
    (∀ h0, (sanitizeCore name).head? = some h0 → h0 ≠ '-') ∧
    (∀ x, (sanitizeCore name).getLast? = some x → x ≠ '-') ∧
    (sanitizeCore name).length ≤ 25 := by
  set s1 := (lowerL name).filter keepChar with hs1
  set s2 := replaceRuns jsIsSpace '-' s1 with hs2
  set s3 := replaceRuns isHyphen '-' s2 with hs3
  set s4 := s3.dropWhile isHyphen with hs4
  set s5 := dropTrailingWhile isHyphen s4 with hs5
  set s6 := s5.take 25 with hs6
  have hcore : sanitizeCore name = dropTrailingWhile isHyphen s6 := rfl
  have h1 : ∀ c ∈ s1, keepChar c = true := fun c hc => (List.mem_filter.mp hc).2
  have h2chars : ∀ c ∈ s2, isWordChar c = true ∨ c = '-' := by
    intro c hc
    rcases mem_replaceRunsGo jsIsSpace '-' s1 false c hc with rfl | ⟨hm, hsp⟩
    · exact Or.inr rfl
    · have hk := h1 c hm
      simp only [keepChar, Bool.or_eq_true, decide_eq_true_eq] at hk
      rcases hk with (hw | hspc) | hh
      · exact Or.inl hw
      · rw [hsp] at hspc
        exact absurd hspc (by decide)
      · exact Or.inr hh
  have h3chars : ∀ c ∈ s3, isWordChar c = true ∨ c = '-' := by
    intro c hc
    rcases mem_replaceRunsGo isHyphen '-' s2 false c hc with rfl | ⟨hm, _⟩
    · exact Or.inr rfl
    · exact h2chars c hm
  have h3noAdj : noAdjHyphen s3 = true := noAdj_replaceRunsGo s2 false
  have h4chars : ∀ c ∈ s4, isWordChar c = true ∨ c = '-' :=
    fun c hc => h3chars c ((List.dropWhile_suffix isHyphen).sublist.subset hc)
  have h4noAdj : noAdjHyphen s4 = true := noAdj_dropWhile isHyphen s3 h3noAdj
  have h4head : ∀ h0, s4.head? = some h0 → h0 ≠ '-' := by
    intro h0 h
    have := head_dropWhile_not isHyphen s3 h0 h
    simpa [isHyphen] using this
  have h5pre : s5 <+: s4 := dropTrailingWhile_prefixOf isHyphen s4
  have h5chars : ∀ c ∈ s5, isWordChar c = true ∨ c = '-' :=
    fun c hc => h4chars c (h5pre.sublist.subset hc)
  have h5noAdj : noAdjHyphen s5 = true := by
    obtain ⟨t, ht⟩ := h5pre
    rw [← ht] at h4noAdj
    exact noAdj_append_left s5 t h4noAdj
  have h5head : ∀ h0, s5.head? = some h0 → h0 ≠ '-' :=
    fun h0 h => h4head h0 (prefix_head_eq h5pre h0 h)
  have h6pre : s6 <+: s5 := List.take_prefix 25 s5
  have h6chars : ∀ c ∈ s6, isWordChar c = true ∨ c = '-' :=
    fun c hc => h5chars c (h6pre.sublist.subset hc)
  have h6noAdj : noAdjHyphen s6 = true := noAdj_take s5 h5noAdj 25
  have h6head : ∀ h0, s6.head? = some h0 → h0 ≠ '-' :=
    fun h0 h => h5head h0 (prefix_head_eq h6pre h0 h)
  have h6len : s6.length ≤ 25 := List.length_take_le 25 s5
  have h7pre : dropTrailingWhile isHyphen s6 <+: s6 :=
    dropTrailingWhile_prefixOf isHyphen s6
  rw [hcore]
  refine ⟨fun c hc => h6chars c (h7pre.sublist.subset hc), ?_, ?_, ?_, ?_⟩
  · obtain ⟨t, ht⟩ := h7pre
    rw [← ht] at h6noAdj
    exact noAdj_append_left _ t h6noAdj
  · exact fun h0 h => h6head h0 (prefix_head_eq h7pre h0 h)
  · intro x h
    have := getLast_dropTrailingWhile isHyphen s6 x h
    simpa [isHyphen] using this
  · exact h7pre.length_le.trans h6len

theorem mem_of_head?_eq {l : List Char} {c : Char} (h : l.head? = some c) :
    c ∈ l := by
  cases l with
  | nil => exact absurd h (by simp)
  | cons a as =>
    injection h with h
    rw [h]
    exact List.mem_cons_self _ _

theorem digitCh_digit (d : Nat) (hd : d < 10) :
    48 ≤ (digitCh d).toNat ∧ (digitCh d).toNat ≤ 57 := by
  interval_cases d <;> decide

theorem natDigits_digits :
    ∀ (n : Nat) (c : Char), c ∈ natDigits n → 48 ≤ c.toNat ∧ c.toNat ≤ 57 := by
  intro n
  induction n using Nat.strong_induction_on with
  | _ n ih =>
    intro c hc
    rw [natDigits] at hc
    split_ifs at hc with h
    · rcases List.mem_singleton.mp hc with rfl
      exact digitCh_digit n h
    · rcases List.mem_append.mp hc with hc1 | hc2
      · exact ih (n / 10) (Nat.div_lt_self (by omega) (by omega)) c hc1
      · rcases List.mem_singleton.mp hc2 with rfl
        exact digitCh_digit (n % 10) (Nat.mod_lt n (by omega))

theorem natDigits_ne_nil (n : Nat) : natDigits n ≠ [] := by
  rw [natDigits]
  split_ifs <;> simp

theorem lastN_ne_nil (l : List Char) (hl : l ≠ []) : lastN 6 l ≠ [] := by
  intro h
  rw [lastN] at h
  have h1 := List.drop_eq_nil_iff.mp h
  have h2 : 0 < l.length := List.length_pos.mpr hl
  omega

theorem fallback_digits (now : Nat) :
    ∀ c ∈ lastN 6 (natDigits now), 48 ≤ c.toNat ∧ c.toNat ≤ 57 :=
  fun c hc => natDigits_digits now c (List.drop_subset _ _ hc)

theorem fallback_ne_nil (now : Nat) : fallbackName now ≠ [] := by
  intro h
  have hp : (fallbackName now).head? = some 'p' := rfl
  rw [h] at hp
  exact absurd hp (by simp)

theorem fallback_head (now : Nat) :
    ∀ h0, (fallbackName now).head? = some h0 → h0 ≠ '-' := by
  intro h0 h
  have hp : (fallbackName now).head? = some 'p' := rfl
  rw [hp] at h
  injection h with h
  rw [← h]
  decide

theorem fallback_last (now : Nat) :
    ∀ x, (fallbackName now).getLast? = some x → x ≠ '-' := by
  intro x h
  have hne : lastN 6 (natDigits now) ≠ [] := lastN_ne_nil _ (natDigits_ne_nil now)
  rw [fallbackName, List.getLast?_append_of_ne_nil _ hne] at h
  have hx := fallback_digits now x (mem_of_getLast?_eq _ _ h)
  exact (digit_not_upper_space_hyphen x hx.1 hx.2).2.2

theorem fallback_chars (now : Nat) :
    ∀ c ∈ fallbackName now, isUpperCh c = false ∧ jsIsSpace c = false := by
  intro c hc
  rw [fallbackName] at hc
  rcases List.mem_append.mp hc with hc1 | hc2
  · have hp : ∀ x ∈ "project-".data, isUpperCh x = false ∧ jsIsSpace x = false := by
      decide
    exact hp c hc1
  · have hx := fallback_digits now c hc2
    exact ⟨(digit_not_upper_space_hyphen c hx.1 hx.2).1,
      (digit_not_upper_space_hyphen c hx.1 hx.2).2.1⟩

theorem noAdj_fallback (now : Nat) : noAdjHyphen (fallbackName now) = true := by
  have hds : ∀ c ∈ lastN 6 (natDigits now), c ≠ '-' := by
    intro c hc
    have hx := fallback_digits now c hc
    exact (digit_not_upper_space_hyphen c hx.1 hx.2).2.2
  show noAdjHyphen
    ('p' :: 'r' :: 'o' :: 'j' :: 'e' :: 'c' :: 't' :: '-' :: lastN 6 (natDigits now)) = true
  refine noAdj_cons_of _ _ (Or.inl (by decide)) ?_
  refine noAdj_cons_of _ _ (Or.inl (by decide)) ?_
  refine noAdj_cons_of _ _ (Or.inl (by decide)) ?_
  refine noAdj_cons_of _ _ (Or.inl (by decide)) ?_
  refine noAdj_cons_of _ _ (Or.inl (by decide)) ?_
  refine noAdj_cons_of _ _ (Or.inl (by decide)) ?_
  refine noAdj_cons_of _ _ (Or.inl (by decide)) ?_
  refine noAdj_cons_of _ _ (Or.inr ?_) (noAdj_of_all_ne _ hds)
  exact fun d hd => hds d (mem_of_head?_eq hd)

/-- Claim C1: for every input and every current time, the sanitized project
name is non-empty and either matches `^[a-z0-9]+(-[a-z0-9]+)*$` with length
at most 25 or is the timestamp fallback; in either case it contains no
uppercase letter, no whitespace, no doubled hyphen, and neither starts nor
ends with a hyphen. -/
theorem claim_sanitizer_slug_validity (now : Nat) (name : List Char) :
    sanitizeProjectName now name ≠ [] ∧
    ((matchesSlug (sanitizeProjectName now name) = true ∧
      (sanitizeProjectName now name).length ≤ 25) ∨
      sanitizeProjectName now name = fallbackName now) ∧
    (∀ c ∈ sanitizeProjectName now name, isUpperCh c = false ∧ jsIsSpace c = false) ∧
    includesL (sanitizeProjectName now name) "--".data = false ∧
    (∀ h0, (sanitizeProjectName now name).head? = some h0 → h0 ≠ '-') ∧
    (∀ x, (sanitizeProjectName now name).getLast? = some x → x ≠ '-') := by
  obtain ⟨hchars, hnoAdj, hhead, hlast, hlen⟩ := sanitizeCore_invariants name
  by_cases hs : (sanitizeCore name).isEmpty = true
  · have hr : sanitizeProjectName now name = fallbackName now := by
      rw [sanitizeProjectName, if_pos hs]
    rw [hr]
    exact ⟨fallback_ne_nil now, Or.inr rfl, fallback_chars now,
      not_includes_dd_of_noAdj _ (noAdj_fallback now),
      fallback_head now, fallback_last now⟩
  · have hr : sanitizeProjectName now name = sanitizeCore name := by
      rw [sanitizeProjectName, if_neg hs]
    have hne : sanitizeCore name ≠ [] := by
      intro h
      exact hs (by rw [h]; rfl)
    rw [hr]
    refine ⟨hne, Or.inl ⟨?_, hlen⟩, ?_, not_includes_dd_of_noAdj _ hnoAdj,
      hhead, hlast⟩
    · cases hsc : sanitizeCore name with
      | nil => exact absurd hsc hne
      | cons h0 t =>
        have hh : (sanitizeCore name).head? = some h0 := by rw [hsc]; rfl
        have hw : isWordChar h0 = true := by
          rcases hchars h0 (by rw [hsc]; exact List.mem_cons_self _ _) with hw | hh2
          · exact hw
          · exact absurd hh2 (hhead h0 hh)
        have := (slugOk_of_invariants (sanitizeCore name) hchars hnoAdj hlast).2
          h0 hh hw
        rw [← hsc]
        exact this
    · intro c hc
      rcases hchars c hc with hw | rfl
      · exact word_not_upper_space c hw
      · exact ⟨by decide, by decide⟩

end WebBuilder
